import Mathlib

/-!
Shallow embedding of the hapi-json-api formatting module (src/unnamed/part_000)
over a model of the JavaScript values it manipulates.

Modelling conventions:
* JavaScript primitive values are modelled by `JSVal`; `truthy` is the
  JavaScript boolean coercion on that fragment.
* Plain objects that the module reads by key are modelled as association
  lists `List (String × JSVal)`; property deletion removes the binding and
  a missing key reads as `JSVal.undefined`.
* The module mutates in place (property deletes, pushes); the embedding is
  pure and returns the post-mutation value.  Input collections are treated
  as lists of values, which matches JavaScript runs in which the caller does
  not alias the same object twice in one call.
* The relationships provider is a function in JavaScript, invoked as
  `getRelationships(options, data)`.  It is external input, so it is
  modelled by the list of descriptors it returns: on a data object as the
  field `getRelationships : Option (List Relationship)`, and the override
  `options.getRelationships` as `Option (DataObj → List Relationship)`.
* The repository pins ramda 0.26 (package.json: caret 0.26.1).  In that
  version `R.prop` is not null safe: `R.prop (quote id)` applied to
  `undefined` throws a TypeError.  Functions that can hit that path return
  `Except Unit`.
-/

/-- Model of the JavaScript primitive values this module manipulates. -/
inductive JSVal : Type where
  | undefined : JSVal
  | null : JSVal
  | bool (b : Bool) : JSVal
  | num (n : Int) : JSVal
  | str (s : String) : JSVal
deriving DecidableEq, Repr

/-- JavaScript truthiness on the modelled fragment. -/
def truthy : JSVal → Bool
  | .undefined => false
  | .null => false
  | .bool b => b
  | .num n => n != 0
  | .str s => s != ""

/-- JavaScript `a || b` on modelled values. -/
def jsOr (a b : JSVal) : JSVal := if truthy a then a else b

/-- Property read on an association-list object: a missing key is `undefined`. -/
def getKey (l : List (String × JSVal)) (k : String) : JSVal :=
  match l.find? (fun p => p.1 == k) with
  | some p => p.2
  | none => .undefined

/-- Property deletion (`delete obj[k]`) on an association-list object. -/
def delKey (l : List (String × JSVal)) (k : String) : List (String × JSVal) :=
  l.filter (fun p => p.1 != k)

/-- Whether an association-list object has the key `k`. -/
def hasKey (l : List (String × JSVal)) (k : String) : Bool :=
  l.any (fun p => p.1 == k)

mutual

/-- A domain object passed to `toAPI`: its own enumerable fields, an optional
`toJSON` serialize capability, an optional `getRelationships` capability
(modelled by the descriptor list the function returns), and the value of
`toString()` (used by `getId` on binary-identifier wrappers). -/
inductive DataObj : Type where
  | mk (fields : List (String × JSVal)) (toJSON : Option (List (String × JSVal)))
       (getRelationships : Option (List Relationship)) (toStr : String)

/-- A relationship descriptor as consumed by `toAPI`. -/
inductive Relationship : Type where
  | mk (type : String) (name : Option String) (keep : Bool)
       (item : Option Item) (items : Option (List Item))

/-- A related item: a domain object or a bare primitive identifier.
Nullish items are excluded from the model: in JavaScript a nullish `item`
fails the truthiness guard and a nullish element of `items` makes `getId`
throw before producing any output. -/
inductive Item : Type where
  | obj (d : DataObj)
  | str (s : String)
  | num (n : Int)

end

def DataObj.fields : DataObj → List (String × JSVal)
  | .mk f _ _ _ => f

def DataObj.toJSON : DataObj → Option (List (String × JSVal))
  | .mk _ j _ _ => j

def DataObj.getRelationships : DataObj → Option (List Relationship)
  | .mk _ _ g _ => g

def DataObj.toStr : DataObj → String
  | .mk _ _ _ s => s

def Relationship.type : Relationship → String
  | .mk t _ _ _ _ => t

def Relationship.name : Relationship → Option String
  | .mk _ n _ _ _ => n

def Relationship.keep : Relationship → Bool
  | .mk _ _ k _ _ => k

def Relationship.item : Relationship → Option Item
  | .mk _ _ _ i _ => i

def Relationship.items : Relationship → Option (List Item)
  | .mk _ _ _ _ i => i

/-- Property read on a data object (`data.id`, `data._id`, ...). -/
def getField (d : DataObj) (k : String) : JSVal := getKey d.fields k

/-- Truthiness of a related item (`if (relationship.item)`): objects are
truthy, primitives follow `truthy`. -/
def itemTruthy : Item → Bool
  | .obj _ => true
  | .str s => truthy (.str s)
  | .num n => truthy (.num n)

/-- The `getId` helper: binary-identifier wrappers (truthy `_bsontype`) are
stringified, else a truthy `item.id` wins, else a bare string is its own id,
else the id is `undefined`. -/
def getId : Item → JSVal
  | .obj d =>
    if truthy (getField d "_bsontype") then .str d.toStr
    else if truthy (getField d "id") then getField d "id"
    else .undefined
  | .str s => .str s
  | .num _ => .undefined

/-- A linkage object `{type, id}` stored under `relationships.<key>.data`. -/
structure LinkObj : Type where
  type : String
  id : JSVal
deriving DecidableEq, Repr

/-- The resolved linkage of one relationship: to-one, to-many, or absent
(`data: undefined` when the descriptor has neither `item` nor `items`). -/
inductive RelData : Type where
  | one (l : LinkObj)
  | many (ls : List LinkObj)
deriving DecidableEq, Repr

/-- One entry of the `relationships` object: `{data: ...}` with `none`
modelling `data: undefined`. -/
structure RelEntry : Type where
  data : Option RelData
deriving DecidableEq, Repr

/-- The `attributes` value of a resource object: an object for domain
objects, or the raw primitive when `toAPI` was called on a primitive item. -/
inductive Attrs : Type where
  | fields (l : List (String × JSVal))
  | raw (v : JSVal)
deriving DecidableEq, Repr

/-- A resource object built by the recursive `toAPI(relationship.type, item)`
call for the `included` list.  That call passes no options, so the result
never has a transient `included` field of its own. -/
structure IncObj : Type where
  type : String
  id : JSVal
  attributes : Attrs
  relationships : Option (List (String × RelEntry))
deriving DecidableEq, Repr

/-- A resource object built by `toAPI`: `included` is the transient
bookkeeping list, `relationships` is present exactly when a provider
existed (modelled as an association list in insertion order). -/
structure RObj : Type where
  type : String
  id : JSVal
  attributes : Attrs
  included : Option (List IncObj)
  relationships : Option (List (String × RelEntry))
deriving DecidableEq, Repr

/-- The relationship key `relationship.name || relationship.type`. -/
def relKeyOf (rel : Relationship) : String :=
  match rel.name with
  | some n => if n ≠ "" then n else rel.type
  | none => rel.type

/-- JavaScript property assignment on an association-list object: an
existing key keeps its position and gets the new value, a new key is
appended. -/
def relSet (m : List (String × RelEntry)) (k : String) (v : RelEntry) :
    List (String × RelEntry) :=
  if m.any (fun p => p.1 == k) then
    m.map (fun p => if p.1 == k then (k, v) else p)
  else m ++ [(k, v)]

/-- Property read on the `relationships` object. -/
def relGet (m : List (String × RelEntry)) (k : String) : Option RelEntry :=
  (m.find? (fun p => p.1 == k)).map (fun p => p.2)

/-- Attribute stripping for one descriptor: unless `keep`, delete the
`type` key and, when `name` is truthy, the `name` key. -/
def stripAttrs (rel : Relationship) (a : List (String × JSVal)) :
    List (String × JSVal) :=
  if rel.keep then a
  else
    let a1 := delKey a rel.type
    match rel.name with
    | some n => if n ≠ "" then delKey a1 n else a1
    | none => a1

/-- The linkage stored for one descriptor: to-one when `item` is truthy,
else to-many when `items` is present, else `data: undefined`. -/
def relDataOf (rel : Relationship) : Option RelData :=
  match rel.item with
  | some it =>
    if itemTruthy it then some (.one ⟨rel.type, getId it⟩)
    else
      match rel.items with
      | some its => some (.many (its.map (fun it2 => ⟨rel.type, getId it2⟩)))
      | none => none
  | none =>
    match rel.items with
    | some its => some (.many (its.map (fun it2 => ⟨rel.type, getId it2⟩)))
    | none => none

/-- Per-call formatting options.  `meta` keeps its JavaScript truthiness
behaviour (`undefined` models an absent option); `getRelationships` is the
override provider, modelled by the descriptors it returns for a data
object (in JavaScript it also receives the options, which the embedding
fixes to the options of the enclosing call). -/
structure JSOptions : Type where
  meta : JSVal := .undefined
  includedRelationships : Option (List String) := none
  getRelationships : Option (DataObj → List Relationship) := none

/-- The options value of the recursive `toAPI(relationship.type, item)` call,
which passes no options at all (`options = options || {}`). -/
def emptyOptions : JSOptions := {}

/-- State threaded through the `forEach` over relationship descriptors in
`toAPI`: the attributes object, the transient included list and the
relationships object, all mutated in place in JavaScript. -/
structure TState : Type where
  attributes : List (String × JSVal)
  included : Option (List IncObj)
  relationships : List (String × RelEntry)

/-- State for the same loop inside the recursive included call, which has no
options and therefore no included list. -/
structure TState0 : Type where
  attributes : List (String × JSVal)
  relationships : List (String × RelEntry)

/-- Loop body of `toAPI` for the recursive included call (no options, hence
no included bookkeeping): strip attributes, resolve the linkage, store the
relationships entry. -/
def processRel0 (st : TState0) (rel : Relationship) : TState0 :=
  { attributes := stripAttrs rel st.attributes
    relationships := relSet st.relationships (relKeyOf rel) ⟨relDataOf rel⟩ }

/-- The attributes object before stripping: `data.toJSON ? data.toJSON() :
data` with the identifier keys deleted. -/
def initialAttrs (d : DataObj) : List (String × JSVal) :=
  delKey (delKey (d.toJSON.getD d.fields) "id") "_id"

/-- The emitted id: `data.id || data._id`. -/
def extractId (d : DataObj) : JSVal := jsOr (getField d "id") (getField d "_id")

/-- The body of `toAPI(type, data)` as invoked recursively for included
resources: no options, so the provider is the capability of the data object
itself and no included list is initialised. -/
def toAPIData0 (t : String) (d : DataObj) : IncObj :=
  match d.getRelationships with
  | none => ⟨t, extractId d, .fields (initialAttrs d), none⟩
  | some rels =>
    let st := rels.foldl processRel0 ⟨initialAttrs d, []⟩
    ⟨t, extractId d, .fields st.attributes, some st.relationships⟩

/-- The recursive call `toAPI(relationship.type, item)` on a related item.
On a primitive the attributes are the primitive itself, the identifier
reads are `undefined` and there is no relationships capability. -/
def toAPIItem (t : String) : Item → IncObj
  | .obj d => toAPIData0 t d
  | .str s => ⟨t, .undefined, .raw (.str s), none⟩
  | .num n => ⟨t, .undefined, .raw (.num n), none⟩

/-- Membership test `R.contains(relationship.type, options.includedRelationships)`.
It is only evaluated under the `ret.included` guard, which in JavaScript
implies the option is a non-empty array; the `none` case is therefore
unreachable there. -/
def inclContains (t : String) : Option (List String) → Bool
  | some l => l.contains t
  | none => false

/-- Loop body of the `forEach` over relationship descriptors in `toAPI`:
strip attributes, resolve the linkage, push included resources for
selected relationship types, store the relationships entry. -/
def processRel (opts : JSOptions) (st : TState) (rel : Relationship) : TState :=
  let attrs := stripAttrs rel st.attributes
  let pushes : List IncObj :=
    match rel.item with
    | some it =>
      if itemTruthy it then [toAPIItem rel.type it]
      else
        match rel.items with
        | some its => its.map (toAPIItem rel.type)
        | none => []
    | none =>
      match rel.items with
      | some its => its.map (toAPIItem rel.type)
      | none => []
  let inc :=
    match st.included with
    | some lst =>
      if inclContains rel.type opts.includedRelationships then some (lst ++ pushes)
      else some lst
    | none => none
  { attributes := attrs
    included := inc
    relationships := relSet st.relationships (relKeyOf rel) ⟨relDataOf rel⟩ }

/-- The transient included list initialiser: an empty list exactly when
`options.includedRelationships` is a non-empty array. -/
def initIncluded (opts : JSOptions) : Option (List IncObj) :=
  match opts.includedRelationships with
  | some l => if l.isEmpty then none else some []
  | none => none

/-- The provider `toAPI` settles on: the override from the options when it
is a function, else the capability of the data object. -/
def providerOf (opts : JSOptions) (d : DataObj) : Option (List Relationship) :=
  match opts.getRelationships with
  | some f => some (f d)
  | none => d.getRelationships

/-- The `toAPI` function: build the resource object, then, when a provider
exists, run the descriptor loop. -/
def toAPI (t : String) (d : DataObj) (opts : JSOptions) : RObj :=
  match providerOf opts d with
  | none => ⟨t, extractId d, .fields (initialAttrs d), initIncluded opts, none⟩
  | some rels =>
    let st := rels.foldl (processRel opts) ⟨initialAttrs d, initIncluded opts, []⟩
    ⟨t, extractId d, .fields st.attributes, st.included, some st.relationships⟩

/-- The `data` member of a document: one resource object or an array. -/
inductive DocData : Type where
  | one (r : RObj)
  | many (rs : List RObj)
deriving DecidableEq, Repr

/-- An entry of the top-level `included` array: a pulled resource object, or
`undefined` when a data item had no `included` property to pull. -/
abbrev IncEntry : Type := Option IncObj

/-- A JSON API document as built by `formatObject` and `formatCollection`. -/
structure Document : Type where
  data : DocData
  included : Option (List IncEntry) := none
  meta : Option JSVal := none
deriving DecidableEq, Repr

/-- The `appendMeta` helper: falsy meta is not appended. -/
def appendMeta (meta : JSVal) (payload : Document) : Document :=
  if truthy meta then { payload with meta := some meta } else payload

/-- The `deleteAndReturnProperty` helper at its single use site, the
property name `included`: return the pulled value and the object with the
property removed. -/
def deleteAndReturnProperty (r : RObj) : Option (List IncObj) × RObj :=
  (r.included, { r with included := none })

/-- The `formatObject` function. -/
def formatObject (t : String) (object : DataObj) (opts : JSOptions) : Document :=
  appendMeta opts.meta { data := .one (toAPI t object opts) }

/-- Model of `R.flatten` on the list of pulled `included` properties: each
pulled array contributes its elements, a pulled `undefined` stays as one
`undefined` element. -/
def flattenPulled : List (Option (List IncObj)) → List IncEntry
  | [] => []
  | none :: rest => none :: flattenPulled rest
  | some xs :: rest => xs.map some ++ flattenPulled rest

/-- Model of `R.prop` applied by `R.uniqBy` to one entry under ramda 0.26:
reading `id` off `undefined` throws. -/
def propId : IncEntry → Except Unit JSVal
  | none => .error ()
  | some r => .ok r.id

/-- Loop of `R.uniqBy(R.prop(...))`: the key function is applied to every
element in order; an element whose key was already seen is dropped, the
first occurrence is kept. -/
def uniqByGo (seen : List JSVal) : List IncEntry → Except Unit (List IncEntry)
  | [] => .ok []
  | e :: es =>
    match propId e with
    | .error u => .error u
    | .ok k =>
      if k ∈ seen then uniqByGo seen es
      else (uniqByGo (k :: seen) es).map (fun r => e :: r)

/-- Deduplication of the flattened included entries by id,
`R.uniqBy(R.prop(...))` with the property name `id`. -/
def uniqByPropId (l : List IncEntry) : Except Unit (List IncEntry) :=
  uniqByGo [] l

/-- The `pullIncluded` pipeline of `formatCollection`: pull the `included`
property off every data item, flatten, deduplicate by id. -/
def pullIncluded (data : List RObj) : Except Unit (List IncEntry) :=
  uniqByPropId (flattenPulled (data.map (fun r => (deleteAndReturnProperty r).1)))

/-- The `formatCollection` function.  The result is `Except` because the
ramda 0.26 key function throws when a pulled `included` is `undefined`,
which happens exactly when `includedRelationships` is a present but empty
array and the collection is non-empty. -/
def formatCollection (t : String) (items : List DataObj) (opts : JSOptions) :
    Except Unit Document :=
  let data := items.map (fun i => toAPI t i opts)
  match opts.includedRelationships with
  | none => .ok (appendMeta opts.meta { data := .many data })
  | some _ =>
    match pullIncluded data with
    | .error u => .error u
    | .ok inc =>
      .ok (appendMeta opts.meta
        { data := .many (data.map (fun r => (deleteAndReturnProperty r).2))
          included := some inc })

/-- One entry of a Joi validation report: a field path and a message. -/
structure JoiDetail : Type where
  message : String
  path : List String
deriving DecidableEq, Repr

/-- The structured data attached to a Boom error.  The `_expose` property is
the explicitly exposable subset; `rest` models every other part of the
payload; `isBuffer` and `bufStr` model the `instanceof Buffer` check and
the string the buffer prints as. -/
structure ErrData : Type where
  _expose : JSVal := .undefined
  rest : List (String × JSVal) := []
  isBuffer : Bool := false
  bufStr : String := ""

/-- The response inspected by the `onPreResponse` handler: whether it is a
Boom error, the derived output status code, reason phrase and message, the
attached data, and the Joi validation marker with its details list
(`none` models an absent or non-array `details`). -/
structure ErrResponse : Type where
  isBoom : Bool
  statusCode : Nat
  payloadError : JSVal
  payloadMessage : JSVal
  data : Option ErrData := none
  isJoi : Bool := false
  details : Option (List JoiDetail) := none

/-- The client-visible error object. -/
structure ErrorObject : Type where
  status : String
  title : JSVal
  details : JSVal
  meta : Option JSVal := none
deriving DecidableEq, Repr

/-- What the handler hands back to hapi: `h.continue`, or a response built
from the errors payload with an explicit status code. -/
inductive ErrResult : Type where
  | hContinue
  | response (errors : List ErrorObject) (code : Nat)
deriving DecidableEq, Repr

/-- A value passed to `req.log`: the buffer rendered as a string, or the
data payload itself. -/
inductive LogValue : Type where
  | strVal (s : String)
  | dataVal (d : ErrData)

/-- The `getJoiErrorMessage` helper. -/
def getJoiErrorMessage (details : JoiDetail) : String :=
  "Validation error: " ++ details.message ++ " (" ++
    String.intercalate "." details.path ++ ")"

/-- The value logged for a 500 error: the full data payload, stringified
when it is a buffer. -/
def logValueOf (d : ErrData) : LogValue :=
  if d.isBuffer then .strVal d.bufStr else .dataVal d

/-- The `formatError` handler.  The first component is what is returned to
hapi, the second the list of `req.log` calls (tag and value). -/
def formatError (response : ErrResponse) : ErrResult × List (String × LogValue) :=
  if !response.isBoom then (.hContinue, [])
  else
    let e0 : ErrorObject :=
      { status := toString response.statusCode
        title := response.payloadError
        details := response.payloadMessage }
    let step : ErrorObject × List (String × LogValue) :=
      match response.data with
      | none => (e0, [])
      | some d =>
        (if truthy d._expose then { e0 with meta := some d._expose } else e0,
         if response.statusCode = 500 then [("error", logValueOf d)] else [])
    let e2 : ErrorObject :=
      if response.isJoi then
        match response.details with
        | some l =>
          { step.1 with
            details := .str (String.intercalate ", " (l.map getJoiErrorMessage)) }
        | none => step.1
      else step.1
    (.response [e2] response.statusCode, step.2)

/-! Statement helpers. -/

/-- The fold step of the attributes component of the descriptor loop. -/
def attrStep (a : List (String × JSVal)) (rel : Relationship) :
    List (String × JSVal) := stripAttrs rel a

/-- The fold step of the relationships component of the descriptor loop. -/
def relStep (m : List (String × RelEntry)) (rel : Relationship) :
    List (String × RelEntry) := relSet m (relKeyOf rel) ⟨relDataOf rel⟩

/-- Whether one descriptor deletes the attribute key `k`: it is not kept and
`k` is its type, or its truthy name. -/
def stripsB (rel : Relationship) (k : String) : Bool :=
  !rel.keep && (rel.type == k ||
    (match rel.name with
     | some n => n != "" && n == k
     | none => false))

/-- The id key `R.uniqBy` deduplicates on, as a total function on entries
(an `undefined` entry would make the ramda 0.26 key function throw; on
surviving runs every entry is present). -/
def entryKey : IncEntry → JSVal
  | none => .undefined
  | some r => r.id

/-- Agreement of two inspected responses on everything except the parts of
the attached data payload outside its exposable subset. -/
def agreeExceptHidden (r1 r2 : ErrResponse) : Prop :=
  r1.isBoom = r2.isBoom ∧ r1.statusCode = r2.statusCode ∧
  r1.payloadError = r2.payloadError ∧ r1.payloadMessage = r2.payloadMessage ∧
  r1.isJoi = r2.isJoi ∧ r1.details = r2.details ∧
  (match r1.data, r2.data with
   | none, none => True
   | some d1, some d2 => d1._expose = d2._expose
   | _, _ => False)

/-! Concrete inputs used by per-claim witnesses and counterexamples. -/

/-- C1 witness input: one resource with one to-many relationship with two
related items sharing the id of an item of a second resource. -/
def c1Rel (ids : List String) : Relationship :=
  .mk "foos" none false none
    (some (ids.map (fun i => .obj (.mk [("id", .str i)] none none "o"))))

def c1d1 : DataObj :=
  .mk [("id", .str "1"), ("name", .str "a")] none (some [c1Rel ["x", "y"]]) "o"

def c1d2 : DataObj :=
  .mk [("id", .str "2"), ("name", .str "b")] none (some [c1Rel ["y", "z"]]) "o"

def c1opts : JSOptions := { includedRelationships := some ["foos"] }

/-- C2 input: two resources relating to items with the same id under two
different relationship types. -/
def c2rel (t i : String) : Relationship :=
  .mk t none false (some (.obj (.mk [("id", .str i)] none none "o"))) none

def c2d1 : DataObj := .mk [("id", .str "1")] none (some [c2rel "t1" "x"]) "o"

def c2d2 : DataObj := .mk [("id", .str "2")] none (some [c2rel "t2" "x"]) "o"

def c2opts : JSOptions := { includedRelationships := some ["t1", "t2"] }

/-- C3 input: a plain object formatted as a single-object document with a
non-empty includedRelationships option. -/
def c3d : DataObj := .mk [("id", .str "1"), ("name", .str "foo")] none none "o"

def c3opts : JSOptions := { includedRelationships := some ["foos"] }

/-- C4 counterexample input: a Boom validation failure that also carries
data with an exposable subset. -/
def c4resp : ErrResponse :=
  { isBoom := true
    statusCode := 400
    payloadError := .str "Bad Request"
    payloadMessage := .str "child \"bar\" fails"
    data := some { _expose := .str "exposed", rest := [("secret", .str "s")] }
    isJoi := true
    details := some [{ message := "\"bar\" is required", path := ["bar"] }] }

/-- C5 witness input: a Boom Joi failure with a single issue. -/
def c5resp : ErrResponse :=
  { isBoom := true
    statusCode := 400
    payloadError := .str "Bad Request"
    payloadMessage := .str "orig"
    isJoi := true
    details := some [{ message := "\"bar\" is required", path := ["bar"] }] }

/-- C6 witness inputs: two 500 failures whose payloads agree on the
exposable subset and differ elsewhere. -/
def c6resp1 : ErrResponse :=
  { isBoom := true
    statusCode := 500
    payloadError := .str "Internal Server Error"
    payloadMessage := .str "An internal server error occurred"
    data := some { _expose := .str "shown", rest := [("password", .str "a")] } }

def c6resp2 : ErrResponse :=
  { isBoom := true
    statusCode := 500
    payloadError := .str "Internal Server Error"
    payloadMessage := .str "An internal server error occurred"
    data := some { _expose := .str "shown", rest := [("password", .str "b")],
                   isBuffer := true, bufStr := "buf" } }

/-- C7 witness input: one kept and one stripped relationship over an object
that has both keys as attributes. -/
def c7rels : List Relationship :=
  [.mk "foos" (some "myFoos") false none (some []),
   .mk "bars" none true none (some [])]

def c7d : DataObj :=
  .mk [("id", .str "1"), ("name", .str "n"), ("foos", .str "f"),
       ("myFoos", .str "m"), ("bars", .str "b")] none (some c7rels) "o"

/-- C8 counterexample input: a falsy primary id next to a truthy alternate
identifier. -/
def c8d : DataObj := .mk [("id", .num 0), ("_id", .str "alt")] none none "o"

/-- C9 witness input: a descriptor with neither `item` nor `items`. -/
def c9rel : Relationship := .mk "foos" none false none none

def c9d : DataObj :=
  .mk [("id", .str "1"), ("foos", .str "f")] none (some [c9rel]) "o"

/-- C10 input: the empty-array includedRelationships option. -/
def c10d : DataObj := .mk [("id", .str "1"), ("name", .str "foo")] none none "o"

def c10opts : JSOptions := { includedRelationships := some [] }

/-! Lemmas about the descriptor loop. -/

theorem foldl_processRel_attributes (opts : JSOptions) (rels : List Relationship)
    (st : TState) :
    (rels.foldl (processRel opts) st).attributes = rels.foldl attrStep st.attributes := by
  induction rels generalizing st with
  | nil => rfl
  | cons rel rest ih =>
    rw [List.foldl_cons, List.foldl_cons, ih]
    rfl

theorem foldl_processRel_relationships (opts : JSOptions) (rels : List Relationship)
    (st : TState) :
    (rels.foldl (processRel opts) st).relationships =
      rels.foldl relStep st.relationships := by
  induction rels generalizing st with
  | nil => rfl
  | cons rel rest ih =>
    rw [List.foldl_cons, List.foldl_cons, ih]
    rfl

theorem foldl_processRel0_attributes (rels : List Relationship) (st : TState0) :
    (rels.foldl processRel0 st).attributes = rels.foldl attrStep st.attributes := by
  induction rels generalizing st with
  | nil => rfl
  | cons rel rest ih =>
    rw [List.foldl_cons, List.foldl_cons, ih]
    rfl

theorem foldl_processRel0_relationships (rels : List Relationship) (st : TState0) :
    (rels.foldl processRel0 st).relationships = rels.foldl relStep st.relationships := by
  induction rels generalizing st with
  | nil => rfl
  | cons rel rest ih =>
    rw [List.foldl_cons, List.foldl_cons, ih]
    rfl

theorem processRel_included_none (opts : JSOptions) (st : TState) (rel : Relationship)
    (h : st.included = none) : (processRel opts st rel).included = none := by
  simp only [processRel, h]

theorem processRel_included_isSome (opts : JSOptions) (st : TState) (rel : Relationship) :
    (processRel opts st rel).included.isSome = st.included.isSome := by
  rcases st with ⟨a, inc, m⟩
  rcases inc with _ | lst
  · rfl
  · simp only [processRel]
    rcases h : inclContains rel.type opts.includedRelationships <;> simp [h]

theorem foldl_processRel_included_isSome (opts : JSOptions) (rels : List Relationship)
    (st : TState) :
    (rels.foldl (processRel opts) st).included.isSome = st.included.isSome := by
  induction rels generalizing st with
  | nil => rfl
  | cons rel rest ih =>
    rw [List.foldl_cons, ih, processRel_included_isSome]

/-! Characterizations of `toAPI`. -/

theorem toAPI_type (t : String) (d : DataObj) (opts : JSOptions) :
    (toAPI t d opts).type = t := by
  unfold toAPI
  rcases providerOf opts d with _ | rels <;> rfl

theorem toAPI_id (t : String) (d : DataObj) (opts : JSOptions) :
    (toAPI t d opts).id = extractId d := by
  unfold toAPI
  rcases providerOf opts d with _ | rels <;> rfl

theorem toAPI_included_isSome (t : String) (d : DataObj) (opts : JSOptions) :
    (toAPI t d opts).included.isSome = (initIncluded opts).isSome := by
  unfold toAPI
  rcases providerOf opts d with _ | rels
  · rfl
  · simpa using foldl_processRel_included_isSome opts rels ⟨initialAttrs d, initIncluded opts, []⟩

theorem toAPI_attributes_none (t : String) (d : DataObj) (opts : JSOptions)
    (h : providerOf opts d = none) :
    (toAPI t d opts).attributes = .fields (initialAttrs d) := by
  unfold toAPI
  rw [h]

theorem toAPI_attributes_some (t : String) (d : DataObj) (opts : JSOptions)
    (rels : List Relationship) (h : providerOf opts d = some rels) :
    (toAPI t d opts).attributes = .fields (rels.foldl attrStep (initialAttrs d)) := by
  unfold toAPI
  rw [h]
  simp only []
  rw [show (rels.foldl (processRel opts) ⟨initialAttrs d, initIncluded opts, []⟩).attributes
      = rels.foldl attrStep (initialAttrs d) from
    foldl_processRel_attributes opts rels ⟨initialAttrs d, initIncluded opts, []⟩]

theorem toAPI_relationships_some (t : String) (d : DataObj) (opts : JSOptions)
    (rels : List Relationship) (h : providerOf opts d = some rels) :
    (toAPI t d opts).relationships = some (rels.foldl relStep []) := by
  unfold toAPI
  rw [h]
  simp only []
  rw [show (rels.foldl (processRel opts) ⟨initialAttrs d, initIncluded opts, []⟩).relationships
      = rels.foldl relStep [] from
    foldl_processRel_relationships opts rels ⟨initialAttrs d, initIncluded opts, []⟩]

/-- Faithfulness of the two-level encoding: the resource object built by
`toAPI` with the empty options of the recursive call is exactly the
embedding of `toAPIData0`, which therefore models the recursive
`toAPI(relationship.type, item)` call on object items. -/
theorem toAPI_none_eq (t : String) (d : DataObj) (opts : JSOptions)
    (h : providerOf opts d = none) :
    toAPI t d opts =
      ⟨t, extractId d, .fields (initialAttrs d), initIncluded opts, none⟩ := by
  unfold toAPI
  rw [h]

theorem toAPI_some_eq (t : String) (d : DataObj) (opts : JSOptions)
    (rels : List Relationship) (h : providerOf opts d = some rels) :
    toAPI t d opts =
      ⟨t, extractId d, .fields (rels.foldl attrStep (initialAttrs d)),
        (rels.foldl (processRel opts) ⟨initialAttrs d, initIncluded opts, []⟩).included,
        some (rels.foldl relStep [])⟩ := by
  unfold toAPI
  rw [h]
  show (⟨t, extractId d,
      .fields (rels.foldl (processRel opts) ⟨initialAttrs d, initIncluded opts, []⟩).attributes,
      (rels.foldl (processRel opts) ⟨initialAttrs d, initIncluded opts, []⟩).included,
      some (rels.foldl (processRel opts) ⟨initialAttrs d, initIncluded opts, []⟩).relationships⟩ : RObj) = _
  rw [foldl_processRel_attributes, foldl_processRel_relationships]

theorem toAPIData0_none_eq (t : String) (d : DataObj)
    (h : d.getRelationships = none) :
    toAPIData0 t d = ⟨t, extractId d, .fields (initialAttrs d), none⟩ := by
  unfold toAPIData0
  rw [h]

theorem toAPIData0_some_eq (t : String) (d : DataObj)
    (rels : List Relationship) (h : d.getRelationships = some rels) :
    toAPIData0 t d =
      ⟨t, extractId d, .fields (rels.foldl attrStep (initialAttrs d)),
        some (rels.foldl relStep [])⟩ := by
  unfold toAPIData0
  rw [h]
  show (⟨t, extractId d,
      .fields (rels.foldl processRel0 ⟨initialAttrs d, []⟩).attributes,
      some (rels.foldl processRel0 ⟨initialAttrs d, []⟩).relationships⟩ : IncObj) = _
  rw [foldl_processRel0_attributes, foldl_processRel0_relationships]

theorem foldl_processRel_included_none (opts : JSOptions) (rels : List Relationship)
    (st : TState) (h : st.included = none) :
    (rels.foldl (processRel opts) st).included = none := by
  have hs := foldl_processRel_included_isSome opts rels st
  rw [h] at hs
  simpa [Option.isSome_iff_exists] using hs

/-- Faithfulness of the two-level encoding: the resource object built by
`toAPI` with the empty options of the recursive call is exactly the
embedding of `toAPIData0`, which therefore models the recursive
`toAPI(relationship.type, item)` call on object items. -/
theorem toAPI_emptyOptions (t : String) (d : DataObj) :
    toAPI t d emptyOptions =
      { type := (toAPIData0 t d).type
        id := (toAPIData0 t d).id
        attributes := (toAPIData0 t d).attributes
        included := none
        relationships := (toAPIData0 t d).relationships } := by
  have hp : providerOf emptyOptions d = d.getRelationships := rfl
  rcases hg : d.getRelationships with _ | rels
  · rw [toAPI_none_eq t d emptyOptions (hp.trans hg), toAPIData0_none_eq t d hg]
    rfl
  · rw [toAPI_some_eq t d emptyOptions rels (hp.trans hg), toAPIData0_some_eq t d rels hg]
    have hn := foldl_processRel_included_none emptyOptions rels
      ⟨initialAttrs d, initIncluded emptyOptions, []⟩ rfl
    rw [hn]

/-! Lemmas about attribute keys. -/

theorem hasKey_delKey (l : List (String × JSVal)) (k k2 : String) :
    hasKey (delKey l k2) k = (hasKey l k && !(k == k2)) := by
  unfold hasKey delKey
  rw [List.any_filter]
  by_cases hkk : k = k2
  · subst hkk
    have hf : (fun a : String × JSVal => (a.1 != k) && (a.1 == k)) = fun _ => false := by
      funext a
      by_cases h : a.1 = k <;> simp [h]
    rw [hf]
    simp
  · have hf : (fun a : String × JSVal => (a.1 != k2) && (a.1 == k)) =
        fun a : String × JSVal => a.1 == k := by
      funext a
      by_cases h : a.1 = k
      · simp [h, hkk]
      · simp [h]
    rw [hf]
    simp [hkk]

theorem hasKey_stripAttrs (rel : Relationship) (a : List (String × JSVal)) (k : String) :
    hasKey (stripAttrs rel a) k = (hasKey a k && !stripsB rel k) := by
  rcases hk : rel.keep
  · rcases hn : rel.name with _ | n
    · by_cases ht : rel.type = k
      · subst ht
        simp [stripAttrs, stripsB, hk, hn, hasKey_delKey]
      · have hb1 : (k == rel.type) = false := by simp [Ne.symm ht]
        have hb2 : (rel.type == k) = false := by simp [ht]
        simp [stripAttrs, stripsB, hk, hn, hasKey_delKey, hb1, hb2]
    · by_cases he : n = ""
      · subst he
        by_cases ht : rel.type = k
        · subst ht
          simp [stripAttrs, stripsB, hk, hn, hasKey_delKey]
        · have hb1 : (k == rel.type) = false := by simp [Ne.symm ht]
          have hb2 : (rel.type == k) = false := by simp [ht]
          simp [stripAttrs, stripsB, hk, hn, hasKey_delKey, hb1, hb2]
      · by_cases ht : rel.type = k
        · subst ht
          simp [stripAttrs, stripsB, hk, hn, hasKey_delKey, he]
        · have hb1 : (k == rel.type) = false := by simp [Ne.symm ht]
          have hb2 : (rel.type == k) = false := by simp [ht]
          by_cases hnk : n = k
          · subst hnk
            have hb5 : (n != "") = true := by simp [he]
            simp [stripAttrs, stripsB, hk, hn, hasKey_delKey, hb1, hb2, hb5, he]
          · have hb3 : (k == n) = false := by simp [Ne.symm hnk]
            have hb4 : (n == k) = false := by simp [hnk]
            simp [stripAttrs, stripsB, hk, hn, hasKey_delKey, hb1, hb2, hb3, hb4, he]
  · simp [stripAttrs, stripsB, hk]

theorem hasKey_foldl_attrStep (rels : List Relationship) (a : List (String × JSVal))
    (k : String) :
    hasKey (rels.foldl attrStep a) k =
      (hasKey a k && rels.all (fun rel => !stripsB rel k)) := by
  induction rels generalizing a with
  | nil => simp
  | cons rel rest ih =>
    rw [List.foldl_cons, List.all_cons, ih, attrStep, hasKey_stripAttrs,
      Bool.and_assoc]

theorem hasKey_initialAttrs (d : DataObj) (k : String) :
    hasKey (initialAttrs d) k =
      (hasKey (d.toJSON.getD d.fields) k && !(k == "id") && !(k == "_id")) := by
  unfold initialAttrs
  rw [hasKey_delKey, hasKey_delKey]

/-! Lemmas about the relationships object. -/

theorem relGet_relSet_self (m : List (String × RelEntry)) (k : String) (v : RelEntry) :
    relGet (relSet m k v) k = some v := by
  unfold relSet
  by_cases h : m.any (fun p => p.1 == k)
  · rw [if_pos h]
    induction m with
    | nil => simp at h
    | cons p rest ih =>
      by_cases hp : p.1 = k
      · simp [relGet, List.find?_cons, hp]
      · have h2 : rest.any (fun p => p.1 == k) := by
          simpa [List.any_cons, hp] using h
        have := ih h2
        simpa [relGet, List.find?_cons, hp] using this
  · rw [if_neg h]
    have hnone : m.find? (fun p => p.1 == k) = none := by
      rw [List.find?_eq_none]
      intro x hx hpx
      exact h (List.any_eq_true.mpr ⟨x, hx, hpx⟩)
    simp [relGet, List.find?_append, hnone]

theorem relGet_relSet_other (m : List (String × RelEntry)) (k k2 : String) (v : RelEntry)
    (h : k2 ≠ k) : relGet (relSet m k v) k2 = relGet m k2 := by
  have hb : (k == k2) = false := by simp [Ne.symm h]
  unfold relSet
  by_cases ha : m.any (fun p => p.1 == k)
  · rw [if_pos ha]
    clear ha
    induction m with
    | nil => rfl
    | cons p rest ih =>
      by_cases hp : p.1 = k
      · have hp2 : (p.1 == k2) = false := by simp [hp, Ne.symm h]
        simp [relGet, List.find?_cons, hp, hp2, hb] at ih ⊢
        exact ih
      · by_cases hq : p.1 = k2
        · have hpk : (p.1 == k) = false := by simp [hp]
          have hpk2 : (p.1 == k2) = true := by simp [hq]
          simp [relGet, List.map_cons, List.find?_cons, hp, hpk, hpk2]
        · have hpk : (p.1 == k) = false := by simp [hp]
          have hpk2 : (p.1 == k2) = false := by simp [hq]
          simp [relGet, List.map_cons, List.find?_cons, hp, hpk, hpk2] at ih ⊢
          exact ih
  · rw [if_neg ha]
    have htail : List.find? (fun p => p.1 == k2) [(k, v)] = none := by
      simp [List.find?, hb]
    rw [relGet, List.find?_append, htail]
    rcases hf : m.find? (fun p => p.1 == k2) with _ | p <;> simp [relGet, hf]

theorem relGet_foldl_relStep_of_no_key (rels : List Relationship)
    (m : List (String × RelEntry)) (k : String)
    (h : ∀ rel ∈ rels, relKeyOf rel ≠ k) :
    relGet (rels.foldl relStep m) k = relGet m k := by
  induction rels generalizing m with
  | nil => rfl
  | cons rel rest ih =>
    rw [List.foldl_cons, ih _ (fun r hr => h r (List.mem_cons_of_mem _ hr))]
    exact relGet_relSet_other m (relKeyOf rel) k ⟨relDataOf rel⟩
      (fun he => h rel (List.mem_cons_self _ _) he.symm)

theorem relGet_foldl_relStep (rels : List Relationship)
    (m : List (String × RelEntry)) (k : String) (v : RelEntry)
    (hex : ∃ rel ∈ rels, relKeyOf rel = k)
    (hall : ∀ rel ∈ rels, relKeyOf rel = k → (⟨relDataOf rel⟩ : RelEntry) = v) :
    relGet (rels.foldl relStep m) k = some v := by
  induction rels generalizing m with
  | nil =>
    rcases hex with ⟨rel, hmem, _⟩
    simp at hmem
  | cons rel rest ih =>
    rw [List.foldl_cons]
    by_cases hr : ∃ rel2 ∈ rest, relKeyOf rel2 = k
    · exact ih _ hr (fun r h2 hk => hall r (List.mem_cons_of_mem _ h2) hk)
    · have hnone : ∀ rel2 ∈ rest, relKeyOf rel2 ≠ k := by
        intro r h2 hk
        exact hr ⟨r, h2, hk⟩
      rw [relGet_foldl_relStep_of_no_key rest _ k hnone]
      have hk : relKeyOf rel = k := by
        rcases hex with ⟨r, hmem, hkey⟩
        rcases List.mem_cons.mp hmem with h1 | h1
        · exact h1 ▸ hkey
        · exact absurd hkey (hnone r h1)
      rw [relStep, hk, relGet_relSet_self]
      exact congrArg some (hall rel (List.mem_cons_self _ _) hk)

/-! Lemmas about the deduplication loop. -/

theorem propId_ok_entryKey (e : IncEntry) (k : JSVal) (h : propId e = .ok k) :
    entryKey e = k := by
  rcases e with _ | r
  · simp [propId] at h
  · injection h

theorem uniqByGo_sublist (l : List IncEntry) : ∀ (seen : List JSVal) (r : List IncEntry),
    uniqByGo seen l = .ok r → r.Sublist l := by
  induction l with
  | nil =>
    intro seen r h
    injection h with h3
    subst h3
    simp
  | cons e es ih =>
    intro seen r h
    rcases hpe : propId e with u | k
    · simp only [uniqByGo, hpe] at h
      exact Except.noConfusion h
    · simp only [uniqByGo, hpe] at h
      by_cases hs : k ∈ seen
      · rw [if_pos hs] at h
        exact (ih seen r h).cons e
      · rw [if_neg hs] at h
        rcases hgo : uniqByGo (k :: seen) es with u | r2
        · rw [hgo] at h
          simp [Except.map] at h
        · rw [hgo] at h
          simp only [Except.map, Except.ok.injEq] at h
          subst h
          exact (ih _ _ hgo).cons₂ e

theorem uniqByGo_spec (l : List IncEntry) : ∀ (seen : List JSVal) (r : List IncEntry),
    uniqByGo seen l = .ok r →
    ((∀ e ∈ r, entryKey e ∉ seen) ∧
     (r.map entryKey).Nodup ∧
     (∀ e ∈ r, l.find? (fun e2 => decide (entryKey e2 = entryKey e)) = some e) ∧
     (∀ e ∈ l, entryKey e ∈ seen ∨ ∃ e2 ∈ r, entryKey e2 = entryKey e)) := by
  induction l with
  | nil =>
    intro seen r h
    injection h with h3
    subst h3
    exact ⟨by simp, by simp, by simp, by simp⟩
  | cons e es ih =>
    intro seen r h
    rcases hpe : propId e with u | k
    · simp only [uniqByGo, hpe] at h
      exact Except.noConfusion h
    · simp only [uniqByGo, hpe] at h
      have hek : entryKey e = k := propId_ok_entryKey e k hpe
      by_cases hs : k ∈ seen
      · rw [if_pos hs] at h
        obtain ⟨h1, h2, h3, h4⟩ := ih seen r h
        refine ⟨h1, h2, ?_, ?_⟩
        · intro x hx
          have hne : decide (entryKey e = entryKey x) = false := by
            simp only [decide_eq_false_iff_not]
            rw [hek]
            intro hcontra
            exact (h1 x hx) (hcontra ▸ hs)
          simp [List.find?_cons, hne, h3 x hx]
        · intro x hx
          rcases List.mem_cons.mp hx with rfl | hx2
          · left
            rw [hek]
            exact hs
          · exact h4 x hx2
      · rw [if_neg hs] at h
        rcases hgo : uniqByGo (k :: seen) es with u | r2
        · rw [hgo] at h
          simp [Except.map] at h
        · rw [hgo] at h
          simp only [Except.map, Except.ok.injEq] at h
          subst h
          obtain ⟨h1, h2, h3, h4⟩ := ih (k :: seen) r2 hgo
          have hkeys : ∀ x ∈ r2, entryKey x ≠ k := by
            intro x hx hcontra
            exact (h1 x hx) (by rw [hcontra]; exact List.mem_cons_self _ _)
          refine ⟨?_, ?_, ?_, ?_⟩
          · intro x hx
            rcases List.mem_cons.mp hx with rfl | hx2
            · rw [hek]
              exact hs
            · intro hmem
              exact (h1 x hx2) (List.mem_cons_of_mem _ hmem)
          · rw [List.map_cons]
            refine List.nodup_cons.mpr ⟨?_, h2⟩
            intro hmem
            rw [List.mem_map] at hmem
            obtain ⟨x, hx, hkey⟩ := hmem
            exact hkeys x hx (by rw [hkey, hek])
          · intro x hx
            rcases List.mem_cons.mp hx with rfl | hx2
            · simp [List.find?_cons]
            · have hne : decide (entryKey e = entryKey x) = false := by
                simp only [decide_eq_false_iff_not]
                rw [hek]
                exact fun hc => hkeys x hx2 hc.symm
              simp [List.find?_cons, hne, h3 x hx2]
          · intro x hx
            rcases List.mem_cons.mp hx with rfl | hx2
            · right
              exact ⟨x, List.mem_cons_self _ _, rfl⟩
            · rcases h4 x hx2 with hmem | ⟨e2, he2, hkey⟩
              · rcases List.mem_cons.mp hmem with hxk | hseen
                · right
                  exact ⟨e, List.mem_cons_self _ _, by rw [hek, hxk]⟩
                · left
                  exact hseen
              · right
                exact ⟨e2, List.mem_cons_of_mem _ he2, hkey⟩

theorem uniqByGo_ok_of_all_isSome (l : List IncEntry) : ∀ (seen : List JSVal),
    (∀ e ∈ l, e.isSome) → ∃ r, uniqByGo seen l = .ok r := by
  induction l with
  | nil =>
    intro seen _
    exact ⟨[], rfl⟩
  | cons e es ih =>
    intro seen h
    rcases e with _ | x
    · have := h none (List.mem_cons_self _ _)
      simp at this
    · simp only [uniqByGo, propId]
      by_cases hs : x.id ∈ seen
      · rw [if_pos hs]
        exact ih seen (fun e2 he => h e2 (List.mem_cons_of_mem _ he))
      · rw [if_neg hs]
        obtain ⟨r, hr⟩ := ih (x.id :: seen) (fun e2 he => h e2 (List.mem_cons_of_mem _ he))
        exact ⟨some x :: r, by rw [hr]; rfl⟩

theorem flattenPulled_all_isSome (pl : List (Option (List IncObj)))
    (h : ∀ p ∈ pl, p.isSome) : ∀ e ∈ flattenPulled pl, e.isSome := by
  induction pl with
  | nil =>
    intro e he
    simp [flattenPulled] at he
  | cons p rest ih =>
    rcases p with _ | xs
    · have := h none (List.mem_cons_self _ _)
      simp at this
    · intro e he
      simp only [flattenPulled] at he
      rcases List.mem_append.mp he with h1 | h2
      · rw [List.mem_map] at h1
        obtain ⟨x, _, rfl⟩ := h1
        rfl
      · exact ih (fun q hq => h q (List.mem_cons_of_mem _ hq)) e h2

/-! Lemmas about the error normalizer. -/

theorem formatError_boom (r : ErrResponse) (h : r.isBoom = true) :
    formatError r =
      (ErrResult.response
        [{ status := toString r.statusCode
           title := r.payloadError
           details :=
             (if r.isJoi then
                match r.details with
                | some l => JSVal.str (String.intercalate ", " (l.map getJoiErrorMessage))
                | none => r.payloadMessage
              else r.payloadMessage)
           meta :=
             (match r.data with
              | some d => if truthy d._expose then some d._expose else none
              | none => none) }] r.statusCode,
       (match r.data with
        | some d => if r.statusCode = 500 then [("error", logValueOf d)] else []
        | none => [])) := by
  unfold formatError
  rw [h]
  rcases hd : r.data with _ | d
  · rcases hj : r.isJoi <;> rcases hds : r.details with _ | ds <;> simp [hj, hds]
  · rcases he : truthy d._expose <;> rcases hj : r.isJoi <;>
      rcases hds : r.details with _ | ds <;> simp [hd, he, hj, hds]

theorem formatError_not_boom (r : ErrResponse) (h : r.isBoom = false) :
    formatError r = (.hContinue, []) := by
  unfold formatError
  rw [h]
  rfl

/-- C4, counterexample.  The claim says every recognized failure yields an
error object with exactly the fields status, title and details, where
details is the failure message.  A Boom Joi validation failure that also
carries exposable data yields an error object whose details is the joined
validation string, not the message, and which carries a meta field. -/
theorem c4_counterexample :
    (formatError c4resp).1 =
      .response [{ status := "400", title := .str "Bad Request",
                   details := .str "Validation error: \"bar\" is required (bar)",
                   meta := some (.str "exposed") }] 400 ∧
    JSVal.str "Validation error: \"bar\" is required (bar)" ≠ c4resp.payloadMessage := by
  exact ⟨rfl, by decide⟩

/-- C4, amended: `formatError` passes through every response that is not a
Boom error, and for every Boom error it returns `errors: [e]` with
`e.status` the decimal status code as a string, `e.title` the reason
phrase, `e.details` the message except for Joi failures with a details
list, where `e.details` is the joined validation string, and `e.meta` the
exposable subset of the attached data when that is present and truthy; the
emitted status code equals the original status code. -/
theorem c4_thm (r : ErrResponse) :
    (r.isBoom = false → formatError r = (.hContinue, [])) ∧
    (r.isBoom = true →
      (formatError r).1 =
        .response
          [{ status := toString r.statusCode
             title := r.payloadError
             details :=
               (if r.isJoi then
                  match r.details with
                  | some l => JSVal.str (String.intercalate ", " (l.map getJoiErrorMessage))
                  | none => r.payloadMessage
                else r.payloadMessage)
             meta :=
               (match r.data with
                | some d => if truthy d._expose then some d._expose else none
                | none => none) }] r.statusCode) := by
  constructor
  · intro h
    exact formatError_not_boom r h
  · intro h
    rw [formatError_boom r h]

/-- C4, witness: the amended theorem applied to the concrete Joi failure. -/
theorem c4_witness :
    (formatError c4resp).1 =
      .response [{ status := "400", title := .str "Bad Request",
                   details := .str "Validation error: \"bar\" is required (bar)",
                   meta := some (.str "exposed") }] 400 := by
  have h := (c4_thm c4resp).2 rfl
  exact h.trans (by rfl)

/-- C5: for every Boom failure recognized as a Joi validation failure with a
details list, the emitted error object's details is the per-issue strings
joined by comma and space, each issue formatted as
`Validation error: <message> (<dotted path>)`; with the single issue of the
spec example the formatted string is exactly
`Validation error: "bar" is required (bar)`. -/
theorem c5_thm (r : ErrResponse) (hb : r.isBoom = true) (hj : r.isJoi = true)
    (ds : List JoiDetail) (hds : r.details = some ds) :
    (match (formatError r).1 with
     | .response es _ =>
        ∀ e ∈ es, e.details = .str (String.intercalate ", " (ds.map getJoiErrorMessage))
     | .hContinue => False) ∧
    getJoiErrorMessage { message := "\"bar\" is required", path := ["bar"] } =
      "Validation error: \"bar\" is required (bar)" := by
  refine ⟨?_, rfl⟩
  rw [formatError_boom r hb]
  simp only [hj, hds, if_true]
  intro e he
  rw [List.mem_singleton] at he
  subst he
  rfl

/-- C5, witness: the theorem applied to the concrete single-issue Joi
failure. -/
theorem c5_witness :
    (match (formatError c5resp).1 with
     | .response es _ =>
        ∀ e ∈ es, e.details = .str (String.intercalate ", "
          ([{ message := "\"bar\" is required", path := ["bar"] }].map getJoiErrorMessage))
     | .hContinue => False) ∧
    getJoiErrorMessage { message := "\"bar\" is required", path := ["bar"] } =
      "Validation error: \"bar\" is required (bar)" :=
  c5_thm c5resp rfl rfl _ rfl

/-- C6: the client-visible error object's meta is exactly the truthy
exposable subset of the attached data and nothing else; the client-visible
result of `formatError` is unchanged by any modification of the attached
payload outside its exposable subset; the full payload is handed to the
operational log exactly for status code 500, and nothing is logged when no
data is attached. -/
theorem c6_thm :
    (∀ r1 r2 : ErrResponse, agreeExceptHidden r1 r2 →
      (formatError r1).1 = (formatError r2).1) ∧
    (∀ r : ErrResponse, r.isBoom = true → ∀ d, r.data = some d →
      (∀ es code, (formatError r).1 = .response es code →
        ∀ e ∈ es, e.meta = if truthy d._expose then some d._expose else none) ∧
      (formatError r).2 =
        (if r.statusCode = 500 then [("error", logValueOf d)] else [])) ∧
    (∀ r : ErrResponse, r.data = none → (formatError r).2 = []) := by
  refine ⟨?_, ?_, ?_⟩
  · intro r1 r2 hag
    obtain ⟨h1, h2, h3, h4, h5, h6, h7⟩ := hag
    rcases r1 with ⟨b1, sc1, pe1, pm1, d1, j1, dt1⟩
    rcases r2 with ⟨b2, sc2, pe2, pm2, d2, j2, dt2⟩
    simp only at h1 h2 h3 h4 h5 h6 h7
    subst h1
    subst h2
    subst h3
    subst h4
    subst h5
    subst h6
    rcases d1 with _ | p1 <;> rcases d2 with _ | p2
    · rfl
    · exact absurd h7 (by simp)
    · exact absurd h7 (by simp)
    · simp only at h7
      simp only [formatError]
      rw [h7]
      rcases b1 <;> rfl
  · intro r hb d hd
    constructor
    · intro es code hres e he
      rw [formatError_boom r hb] at hres
      simp only [Prod.fst] at hres
      injection hres with hes hcode
      subst hes
      rw [List.mem_singleton] at he
      subst he
      simp [hd]
    · rw [formatError_boom r hb]
      simp [hd]
  · intro r hd
    rcases hb : r.isBoom
    · rw [formatError_not_boom r hb]
    · rw [formatError_boom r hb]
      simp [hd]

/-- C6, witness: the noninterference part applied to two concrete 500
failures whose payloads agree on the exposable subset and differ in the
rest. -/
theorem c6_witness :
    (formatError c6resp1).1 = (formatError c6resp2).1 :=
  c6_thm.1 c6resp1 c6resp2 ⟨rfl, rfl, rfl, rfl, rfl, rfl, rfl⟩

/-- C8, counterexample.  The claim says a present primary id always wins,
including falsy values such as 0.  On a resource with primary id 0 and a
truthy alternate identifier, the emitted id is the alternate. -/
theorem c8_counterexample :
    getField c8d "id" = JSVal.num 0 ∧
    (toAPI "models" c8d emptyOptions).id = JSVal.str "alt" ∧
    JSVal.str "alt" ≠ JSVal.num 0 := by
  exact ⟨rfl, rfl, by decide⟩

/-- C8, amended: the emitted id is `data.id || data._id`, so the primary id
wins exactly when it is truthy, and a falsy primary id (0, empty string,
absent) falls through to the alternate identifier field. -/
theorem c8_thm (t : String) (d : DataObj) (opts : JSOptions) :
    (truthy (getField d "id") = true → (toAPI t d opts).id = getField d "id") ∧
    (truthy (getField d "id") = false → (toAPI t d opts).id = getField d "_id") := by
  constructor <;> intro h <;> rw [toAPI_id] <;> unfold extractId jsOr <;> simp [h]

/-- C8, witness: the amended theorem applied to the falsy-primary resource. -/
theorem c8_witness :
    truthy (getField c8d "id") = false ∧
    (toAPI "models" c8d emptyOptions).id = getField c8d "_id" :=
  ⟨rfl, (c8_thm "models" c8d emptyOptions).2 rfl⟩

/-- C9: a descriptor with neither `item` nor `items` is neither skipped nor
an error: the relationships object still maps `name || type` to an entry
whose `data` is `undefined`, and unless `keep` is set the matching
attribute keys are still stripped.  The key-uniqueness hypothesis pins the
entry down in the presence of later descriptors writing the same key. -/
theorem c9_thm (t : String) (d : DataObj) (opts : JSOptions)
    (rels : List Relationship) (h : providerOf opts d = some rels)
    (rel : Relationship) (hmem : rel ∈ rels)
    (hitem : rel.item = none) (hitems : rel.items = none)
    (huniq : ∀ rel2 ∈ rels, relKeyOf rel2 = relKeyOf rel →
      rel2.item = none ∧ rel2.items = none) :
    ((toAPI t d opts).relationships.map
        (fun m => relGet m (relKeyOf rel))) = some (some ⟨none⟩) ∧
    (rel.keep = false →
      (match (toAPI t d opts).attributes with
       | .fields fa =>
          hasKey fa rel.type = false ∧
          (∀ n, rel.name = some n → n ≠ "" → hasKey fa n = false)
       | .raw _ => False)) := by
  constructor
  · rw [toAPI_relationships_some t d opts rels h]
    rw [Option.map_some']
    have hget := relGet_foldl_relStep rels [] (relKeyOf rel) ⟨none⟩
      ⟨rel, hmem, rfl⟩ ?_
    · rw [hget]
    · intro rel2 h2 hk2
      obtain ⟨hi2, his2⟩ := huniq rel2 h2 hk2
      unfold relDataOf
      rw [hi2, his2]
  · intro hkeep
    rw [toAPI_attributes_some t d opts rels h]
    constructor
    · have hstrip : stripsB rel rel.type = true := by
        unfold stripsB
        rw [hkeep]
        simp
      rw [hasKey_foldl_attrStep]
      have hall : rels.all (fun rel2 => !stripsB rel2 rel.type) = false := by
        rw [List.all_eq_false]
        exact ⟨rel, hmem, by simp [hstrip]⟩
      rw [hall, Bool.and_false]
    · intro n hn hne
      have hstrip : stripsB rel n = true := by
        unfold stripsB
        rw [hkeep, hn]
        simp [hne]
      rw [hasKey_foldl_attrStep]
      have hall : rels.all (fun rel2 => !stripsB rel2 n) = false := by
        rw [List.all_eq_false]
        exact ⟨rel, hmem, by simp [hstrip]⟩
      rw [hall, Bool.and_false]

/-- C9, witness: the theorem applied to a concrete descriptor with neither
`item` nor `items`. -/
theorem c9_witness :
    ((toAPI "models" c9d emptyOptions).relationships.map
        (fun m => relGet m (relKeyOf c9rel))) = some (some ⟨none⟩) ∧
    (c9rel.keep = false →
      (match (toAPI "models" c9d emptyOptions).attributes with
       | .fields fa =>
          hasKey fa c9rel.type = false ∧
          (∀ n, c9rel.name = some n → n ≠ "" → hasKey fa n = false)
       | .raw _ => False)) :=
  c9_thm "models" c9d emptyOptions [c9rel] rfl c9rel (List.mem_singleton.mpr rfl)
    rfl rfl (fun rel2 h2 _ => by
      rw [List.mem_singleton] at h2
      subst h2
      exact ⟨rfl, rfl⟩)

/-- C7: the emitted attributes never contain a key equal to a descriptor's
type, or its truthy name, unless that descriptor set `keep`; conversely a
surviving key matching some descriptor forces `keep` on every descriptor it
matches, and a kept key present in the original attribute view (other than
the identifier keys) survives when no descriptor strips it. -/
theorem c7_thm (t : String) (d : DataObj) (opts : JSOptions)
    (rels : List Relationship) (h : providerOf opts d = some rels) :
    (match (toAPI t d opts).attributes with
     | .fields fa =>
        (∀ rel ∈ rels, rel.keep = false →
          hasKey fa rel.type = false ∧
          (∀ n, rel.name = some n → n ≠ "" → hasKey fa n = false)) ∧
        (∀ k, hasKey fa k = true →
          ∀ rel ∈ rels, (rel.type = k ∨ (rel.name = some k ∧ k ≠ "")) →
            rel.keep = true) ∧
        (∀ rel ∈ rels, rel.keep = true → ∀ k,
          (rel.type = k ∨ rel.name = some k) →
          hasKey (d.toJSON.getD d.fields) k = true → k ≠ "id" → k ≠ "_id" →
          (∀ rel2 ∈ rels, stripsB rel2 k = false) →
          hasKey fa k = true)
     | .raw _ => False) := by
  rw [toAPI_attributes_some t d opts rels h]
  refine ⟨?_, ?_, ?_⟩
  · intro rel hmem hkeep
    constructor
    · rw [hasKey_foldl_attrStep]
      have hall : rels.all (fun rel2 => !stripsB rel2 rel.type) = false := by
        rw [List.all_eq_false]
        refine ⟨rel, hmem, by simp [stripsB, hkeep]⟩
      rw [hall, Bool.and_false]
    · intro n hn hne
      rw [hasKey_foldl_attrStep]
      have hall : rels.all (fun rel2 => !stripsB rel2 n) = false := by
        rw [List.all_eq_false]
        refine ⟨rel, hmem, by simp [stripsB, hkeep, hn, hne]⟩
      rw [hall, Bool.and_false]
  · intro k hk rel hmem hmatch
    rw [hasKey_foldl_attrStep, Bool.and_eq_true, List.all_eq_true] at hk
    have hrel : stripsB rel k = false := by
      have h2 := hk.2 rel hmem
      simpa using h2
    by_contra hkeep
    rw [Bool.not_eq_true] at hkeep
    have : stripsB rel k = true := by
      unfold stripsB
      rw [hkeep]
      rcases hmatch with h1 | ⟨h1, h2⟩
      · simp [h1]
      · rw [h1]
        simp [h2]
    rw [this] at hrel
    exact Bool.noConfusion hrel
  · intro rel hmem hkeep k hmatch hinit hid hid2 hnostrip
    rw [hasKey_foldl_attrStep, hasKey_initialAttrs]
    have h1 : (k == "id") = false := by simp [hid]
    have h2 : (k == "_id") = false := by simp [hid2]
    have h3 : rels.all (fun rel2 => !stripsB rel2 k) = true := by
      rw [List.all_eq_true]
      intro rel2 hm2
      rw [hnostrip rel2 hm2]
      rfl
    rw [hinit, h1, h2, h3]
    rfl

/-- C7, witness: the theorem applied to a resource with one stripped named
relationship and one kept relationship. -/
theorem c7_witness :
    hasKey [("name", JSVal.str "n"), ("bars", JSVal.str "b")] "foos" = false ∧
    hasKey [("name", JSVal.str "n"), ("bars", JSVal.str "b")] "myFoos" = false ∧
    hasKey [("name", JSVal.str "n"), ("bars", JSVal.str "b")] "bars" = true := by
  have h := c7_thm "models" c7d emptyOptions c7rels rfl
  have ha : (toAPI "models" c7d emptyOptions).attributes =
      .fields [("name", JSVal.str "n"), ("bars", JSVal.str "b")] := rfl
  rw [ha] at h
  obtain ⟨hstrip, _, hkeepkey⟩ := h
  have hrel1 : (Relationship.mk "foos" (some "myFoos") false none (some [])) ∈ c7rels := by
    simp [c7rels]
  have hrel2 : (Relationship.mk "bars" none true none (some [])) ∈ c7rels := by
    simp [c7rels]
  refine ⟨(hstrip _ hrel1 rfl).1, (hstrip _ hrel1 rfl).2 "myFoos" rfl (by decide), ?_⟩
  refine hkeepkey _ hrel2 rfl "bars" (Or.inl rfl) rfl (by decide) (by decide) ?_
  intro rel2 hm2
  rcases List.mem_cons.mp hm2 with rfl | hm3
  · rfl
  · rw [List.mem_singleton] at hm3
    subst hm3
    rfl

/-! Helper lemmas about documents. -/

theorem appendMeta_data (m : JSVal) (p : Document) : (appendMeta m p).data = p.data := by
  unfold appendMeta
  split <;> rfl

theorem appendMeta_included (m : JSVal) (p : Document) :
    (appendMeta m p).included = p.included := by
  unfold appendMeta
  split <;> rfl

theorem initIncluded_of_none (opts : JSOptions) (h : opts.includedRelationships = none) :
    initIncluded opts = none := by
  unfold initIncluded
  rw [h]

theorem initIncluded_of_empty (opts : JSOptions)
    (h : opts.includedRelationships = some []) : initIncluded opts = none := by
  unfold initIncluded
  rw [h]
  rfl

theorem initIncluded_of_nonempty (opts : JSOptions) (l : List String)
    (h : opts.includedRelationships = some l) (hne : l ≠ []) :
    initIncluded opts = some [] := by
  unfold initIncluded
  rw [h]
  show (if l.isEmpty = true then (none : Option (List IncObj)) else some []) = some []
  rw [if_neg (by simpa [List.isEmpty_iff] using hne)]

theorem toAPI_included_eq_none (t : String) (d : DataObj) (opts : JSOptions)
    (h : initIncluded opts = none) : (toAPI t d opts).included = none := by
  have hs := toAPI_included_isSome t d opts
  rw [h] at hs
  rcases hinc : (toAPI t d opts).included with _ | v
  · rfl
  · rw [hinc] at hs
    simp at hs

theorem formatCollection_none_eq (t : String) (items : List DataObj) (opts : JSOptions)
    (h : opts.includedRelationships = none) :
    formatCollection t items opts =
      .ok (appendMeta opts.meta
        { data := .many (items.map (fun i => toAPI t i opts)), included := none }) := by
  unfold formatCollection
  rw [h]

theorem formatCollection_some_eq (t : String) (items : List DataObj) (opts : JSOptions)
    (l : List String) (h : opts.includedRelationships = some l) :
    formatCollection t items opts =
      (match pullIncluded (items.map (fun i => toAPI t i opts)) with
       | .error u => .error u
       | .ok inc =>
          .ok (appendMeta opts.meta
            { data := .many ((items.map (fun i => toAPI t i opts)).map
                (fun r => { r with included := none }))
              included := some inc })) := by
  unfold formatCollection
  rw [h]
  rfl

/-- C3, counterexample.  The claim says the transient `included` field is
always removed from resource objects before emission, for `formatObject`
too.  With a non-empty includedRelationships option, `formatObject` emits
the `toAPI` result unmodified and its data object carries `included`. -/
theorem c3_counterexample :
    formatObject "models" c3d c3opts =
      { data := .one { type := "models", id := .str "1",
                       attributes := .fields [("name", .str "foo")],
                       included := some [], relationships := none } } ∧
    (some ([] : List IncObj)) ≠ (none : Option (List IncObj)) := by
  exact ⟨rfl, by decide⟩

/-- C3, amended: resource objects inside collection documents never carry
an `included` field, but `formatObject` wraps the `toAPI` result without
stripping, so with a non-empty includedRelationships option the data object
of a single-object document retains its transient `included` field. -/
theorem c3_thm :
    (∀ t items opts doc, formatCollection t items opts = .ok doc →
      ∀ rs, doc.data = .many rs → ∀ r ∈ rs, r.included = none) ∧
    (∀ t d opts, (formatObject t d opts).data = .one (toAPI t d opts)) ∧
    (∀ t d opts l, opts.includedRelationships = some l → l ≠ [] →
      (toAPI t d opts).included.isSome = true) := by
  refine ⟨?_, ?_, ?_⟩
  · intro t items opts doc hok rs hdata r hr
    rcases hopt : opts.includedRelationships with _ | l
    · rw [formatCollection_none_eq t items opts hopt] at hok
      injection hok with hdoc
      subst hdoc
      rw [appendMeta_data] at hdata
      injection hdata with hrs
      subst hrs
      rw [List.mem_map] at hr
      obtain ⟨i, _, rfl⟩ := hr
      exact toAPI_included_eq_none t i opts (initIncluded_of_none opts hopt)
    · rw [formatCollection_some_eq t items opts l hopt] at hok
      rcases hpull : pullIncluded (items.map (fun i => toAPI t i opts)) with u | inc
      · rw [hpull] at hok
        exact Except.noConfusion hok
      · rw [hpull] at hok
        injection hok with hdoc
        subst hdoc
        rw [appendMeta_data] at hdata
        injection hdata with hrs
        subst hrs
        rw [List.mem_map] at hr
        obtain ⟨r2, _, rfl⟩ := hr
        rfl
  · intro t d opts
    unfold formatObject
    rw [appendMeta_data]
  · intro t d opts l hl hne
    rw [toAPI_included_isSome, initIncluded_of_nonempty opts l hl hne]
    rfl

/-- C3, witness: the formatObject part and the included-initialisation part
at the concrete single-object input. -/
theorem c3_witness :
    (formatObject "models" c3d c3opts).data = .one (toAPI "models" c3d c3opts) ∧
    (toAPI "models" c3d c3opts).included.isSome = true :=
  ⟨c3_thm.2.1 "models" c3d c3opts,
   c3_thm.2.2 "models" c3d c3opts ["foos"] rfl (by decide)⟩

/-- C10, counterexample.  The claim says that with an empty-array
includedRelationships option the collection document still carries an
`included` key.  With ramda 0.26 the id key function is applied to the
pulled `undefined` values, so for any non-empty collection the call throws
and returns no document at all. -/
theorem c10_counterexample :
    formatCollection "models" [c10d] c10opts = .error () ∧
    (toAPI "models" c10d c10opts).included = none := by
  exact ⟨rfl, rfl⟩

/-- C10, amended: with includedRelationships present but empty, `toAPI`
initialises no transient included list, and `formatCollection` still takes
the included-processing branch: the empty collection yields a document with
`included: []`, while any non-empty collection makes the ramda 0.26 key
function hit `undefined` and the call throws instead of returning a
document. -/
theorem c10_thm :
    (∀ t d opts, opts.includedRelationships = some [] →
      (toAPI t d opts).included = none) ∧
    (∀ t opts, opts.includedRelationships = some ([] : List String) →
      formatCollection t [] opts =
        .ok (appendMeta opts.meta { data := .many [], included := some [] })) ∧
    (∀ t items opts, opts.includedRelationships = some [] → items ≠ [] →
      formatCollection t items opts = .error ()) := by
  refine ⟨?_, ?_, ?_⟩
  · intro t d opts h
    exact toAPI_included_eq_none t d opts (initIncluded_of_empty opts h)
  · intro t opts h
    rw [formatCollection_some_eq t [] opts [] h]
    rfl
  · intro t items opts h hne
    rcases items with _ | ⟨i, rest⟩
    · exact absurd rfl hne
    · have hinc : (toAPI t i opts).included = none :=
        toAPI_included_eq_none t i opts (initIncluded_of_empty opts h)
      rw [formatCollection_some_eq t (i :: rest) opts [] h]
      have hpull : pullIncluded ((i :: rest).map (fun i2 => toAPI t i2 opts)) = .error () := by
        unfold pullIncluded
        rw [List.map_cons, List.map_cons]
        show uniqByPropId (flattenPulled ((toAPI t i opts).included :: _)) = .error ()
        rw [hinc]
        rfl
      rw [hpull]

/-- C10, witness: the theorem applied to the empty-array option, at a
concrete resource, the empty collection and a non-empty collection. -/
theorem c10_witness :
    (toAPI "models" c10d c10opts).included = none ∧
    formatCollection "models" [] c10opts =
      .ok (appendMeta c10opts.meta { data := .many [], included := some [] }) ∧
    formatCollection "models" [c10d] c10opts = .error () :=
  ⟨c10_thm.1 "models" c10d c10opts rfl,
   c10_thm.2.1 "models" c10opts rfl,
   c10_thm.2.2 "models" [c10d] c10opts rfl (by simp)⟩

/-- C2, counterexample.  Two resources relate to items with the same id
under two different relationship types: both pairs are pushed onto the
flattened included sequence, but deduplication keys on id alone, so the
emitted included array keeps only the first entry and the distinct pair
with type t2 does not appear at all. -/
theorem c2_counterexample :
    flattenPulled (([c2d1, c2d2].map (fun i => toAPI "main" i c2opts)).map RObj.included) =
      [some ⟨"t1", .str "x", .fields [], none⟩, some ⟨"t2", .str "x", .fields [], none⟩] ∧
    (formatCollection "main" [c2d1, c2d2] c2opts).map Document.included =
      .ok (some [some ⟨"t1", .str "x", .fields [], none⟩]) := by
  exact ⟨rfl, rfl⟩

/-- C2, amended: the included array of any collection document, when
present, contains each distinct id exactly once, the surviving entry being
the first pushed entry with that id regardless of type, and every pushed
id is represented. -/
theorem c2_thm (t : String) (items : List DataObj) (opts : JSOptions)
    (doc : Document) (hok : formatCollection t items opts = .ok doc)
    (inc : List IncEntry) (hinc : doc.included = some inc) :
    (inc.map entryKey).Nodup ∧
    (∀ e ∈ inc,
      (flattenPulled ((items.map (fun i => toAPI t i opts)).map RObj.included)).find?
        (fun e2 => decide (entryKey e2 = entryKey e)) = some e) ∧
    (∀ e ∈ flattenPulled ((items.map (fun i => toAPI t i opts)).map RObj.included),
      entryKey e ∈ inc.map entryKey) := by
  rcases hopt : opts.includedRelationships with _ | l
  · rw [formatCollection_none_eq t items opts hopt] at hok
    injection hok with hdoc
    subst hdoc
    rw [appendMeta_included] at hinc
    exact Option.noConfusion hinc
  · rw [formatCollection_some_eq t items opts l hopt] at hok
    rcases hpull : pullIncluded (items.map (fun i => toAPI t i opts)) with u | inc2
    · rw [hpull] at hok
      exact Except.noConfusion hok
    · rw [hpull] at hok
      injection hok with hdoc
      subst hdoc
      rw [appendMeta_included] at hinc
      injection hinc with hinc2
      subst hinc2
      have hq : uniqByGo []
          (flattenPulled ((items.map (fun i => toAPI t i opts)).map RObj.included)) =
          .ok inc2 := hpull
      obtain ⟨h1, h2, h3, h4⟩ := uniqByGo_spec _ [] inc2 hq
      refine ⟨h2, h3, ?_⟩
      intro e he
      rcases h4 e he with hmem | ⟨e2, he2, hkey⟩
      · simp at hmem
      · rw [List.mem_map]
        exact ⟨e2, he2, hkey⟩

/-- C2, witness: the amended theorem applied to the concrete two-resource
collection of the counterexample. -/
theorem c2_witness :
    (([some (⟨"t1", .str "x", .fields [], none⟩ : IncObj)].map entryKey)).Nodup ∧
    (∀ e ∈ [some (⟨"t1", .str "x", .fields [], none⟩ : IncObj)],
      (flattenPulled (([c2d1, c2d2].map (fun i => toAPI "main" i c2opts)).map
          RObj.included)).find?
        (fun e2 => decide (entryKey e2 = entryKey e)) = some e) ∧
    (∀ e ∈ flattenPulled (([c2d1, c2d2].map (fun i => toAPI "main" i c2opts)).map
        RObj.included),
      entryKey e ∈ [some (⟨"t1", .str "x", .fields [], none⟩ : IncObj)].map entryKey) :=
  c2_thm "main" [c2d1, c2d2] c2opts
    { data := .many
        [{ type := "main", id := .str "1", attributes := .fields [], included := none,
           relationships := some [("t1", ⟨some (.one ⟨"t1", .str "x"⟩)⟩)] },
         { type := "main", id := .str "2", attributes := .fields [], included := none,
           relationships := some [("t2", ⟨some (.one ⟨"t2", .str "x"⟩)⟩)] }]
      included := some [some ⟨"t1", .str "x", .fields [], none⟩] }
    rfl [some ⟨"t1", .str "x", .fields [], none⟩] rfl

/-- C1: with a present non-empty includedRelationships option,
`formatCollection` succeeds, its data is the formatted resources with the
transient `included` property removed from every one, and its included
array is the flattening, in data order, of the pulled per-resource lists,
deduplicated by id with the first occurrence winning regardless of type:
the surviving entries form a subsequence of the flattened sequence, their
ids are pairwise distinct, each surviving entry is the first flattened
entry with its id, and every flattened id survives. -/
theorem c1_thm (t : String) (items : List DataObj) (opts : JSOptions)
    (l : List String) (hl : opts.includedRelationships = some l) (hne : l ≠ []) :
    (match formatCollection t items opts with
     | .ok doc =>
        doc.data = .many ((items.map (fun i => toAPI t i opts)).map
          (fun r => { r with included := none })) ∧
        (∀ rs, doc.data = .many rs → ∀ r ∈ rs, r.included = none) ∧
        (match doc.included with
         | some inc =>
            inc.Sublist
              (flattenPulled ((items.map (fun i => toAPI t i opts)).map RObj.included)) ∧
            (inc.map entryKey).Nodup ∧
            (∀ e ∈ inc,
              (flattenPulled ((items.map (fun i => toAPI t i opts)).map
                  RObj.included)).find?
                (fun e2 => decide (entryKey e2 = entryKey e)) = some e) ∧
            (∀ e ∈ flattenPulled ((items.map (fun i => toAPI t i opts)).map
                RObj.included),
              entryKey e ∈ inc.map entryKey)
         | none => False)
     | .error u => False) := by
  have hisSome : ∀ p ∈ (items.map (fun i => toAPI t i opts)).map RObj.included,
      p.isSome := by
    intro p hp
    rw [List.mem_map] at hp
    obtain ⟨r, hr, rfl⟩ := hp
    rw [List.mem_map] at hr
    obtain ⟨i, _, rfl⟩ := hr
    rw [toAPI_included_isSome, initIncluded_of_nonempty opts l hl hne]
    rfl
  have hall := flattenPulled_all_isSome _ hisSome
  obtain ⟨inc, hinc⟩ := uniqByGo_ok_of_all_isSome _ [] hall
  have hq : pullIncluded (items.map (fun i => toAPI t i opts)) = .ok inc := hinc
  rw [formatCollection_some_eq t items opts l hl, hq]
  refine ⟨?_, ?_, ?_⟩
  · rw [appendMeta_data]
  · intro rs hdata r hr
    rw [appendMeta_data] at hdata
    injection hdata with hrs
    subst hrs
    rw [List.mem_map] at hr
    obtain ⟨r2, _, rfl⟩ := hr
    rfl
  · rw [appendMeta_included]
    obtain ⟨h1, h2, h3, h4⟩ := uniqByGo_spec _ [] inc hinc
    refine ⟨uniqByGo_sublist _ [] inc hinc, h2, h3, ?_⟩
    intro e he
    rcases h4 e he with hmem | ⟨e2, he2, hkey⟩
    · simp at hmem
    · rw [List.mem_map]
      exact ⟨e2, he2, hkey⟩

/-- C1, witness: the theorem applied to a concrete two-resource collection
whose included lists overlap on one id. -/
theorem c1_witness :
    (match formatCollection "models" [c1d1, c1d2] c1opts with
     | .ok doc =>
        doc.data = .many (([c1d1, c1d2].map (fun i => toAPI "models" i c1opts)).map
          (fun r => { r with included := none })) ∧
        (∀ rs, doc.data = .many rs → ∀ r ∈ rs, r.included = none) ∧
        (match doc.included with
         | some inc =>
            inc.Sublist
              (flattenPulled (([c1d1, c1d2].map (fun i => toAPI "models" i c1opts)).map
                RObj.included)) ∧
            (inc.map entryKey).Nodup ∧
            (∀ e ∈ inc,
              (flattenPulled (([c1d1, c1d2].map (fun i => toAPI "models" i c1opts)).map
                  RObj.included)).find?
                (fun e2 => decide (entryKey e2 = entryKey e)) = some e) ∧
            (∀ e ∈ flattenPulled (([c1d1, c1d2].map (fun i => toAPI "models" i c1opts)).map
                RObj.included),
              entryKey e ∈ inc.map entryKey)
         | none => False)
     | .error u => False) :=
  c1_thm "models" [c1d1, c1d2] c1opts ["foos"] rfl (by decide)
